import Mathlib

/-!
Verification of the resumable build pipeline in `builder.py` (flux).

The definitions below are a shallow embedding of the state-handling code of
`BuildState` and `ImageBuilder` in `src/builder.py`.  External effects
(running debootstrap, chroot commands, tar) are abstracted as parameters;
everything the pipeline itself computes (step bookkeeping, the executor
loop, the mirror fallback loop, the error path) is translated from the
source.
-/

set_option maxRecDepth 10000

namespace Flux

/-- The fixed step sequence `BuildState.steps` (builder.py lines 34-40). -/
def steps : List String :=
  ["debootstrap", "packages", "custom_commands", "environment", "tarball"]

/-- The mutable part of `BuildState.state` (builder.py lines 42-52).
`started_at` is a timestamp; config is kept as its name only, as in the
persisted dict. -/
structure BuildStateRec where
  build_id : String
  config_name : String
  started_at : Nat
  current_step : Nat
  completed_steps : List String
  failed_step : Option String
  error_message : Option String
  temp_dir : Option String
  rootfs_path : Option String
deriving DecidableEq

/-- The fresh state dict built by `BuildState.__init__` (builder.py lines
42-52): `current_step = 0`, `completed_steps = []`, no failure recorded. -/
def initState (build_id config_name : String) (t : Nat) : BuildStateRec :=
  { build_id := build_id
    config_name := config_name
    started_at := t
    current_step := 0
    completed_steps := []
    failed_step := none
    error_message := none
    temp_dir := none
    rootfs_path := none }

/-- `BuildState.mark_step_completed` (builder.py lines 65-73): append the
step to `completed_steps` if absent; if the step is one of the fixed step
names, raise `current_step` to at least its index plus one.  (The final
`save_state()` call is modelled separately where disk state matters.) -/
def mark_step_completed (st : BuildStateRec) (step : String) : BuildStateRec :=
  let st1 :=
    if step ∈ st.completed_steps then st
    else { st with completed_steps := st.completed_steps ++ [step] }
  if step ∈ steps then
    { st1 with current_step := max st1.current_step (steps.indexOf step + 1) }
  else st1

/-- `BuildState.mark_step_failed` (builder.py lines 75-79): record the
failed step and message; `completed_steps` and `current_step` untouched. -/
def mark_step_failed (st : BuildStateRec) (step : String) (msg : String) :
    BuildStateRec :=
  { st with failed_step := some step, error_message := some msg }

/-- `BuildState.get_next_step` (builder.py lines 81-85): the step at
`current_step`, or none when past the end. -/
def get_next_step (st : BuildStateRec) : Option String :=
  steps[st.current_step]?

/-- One fold step of the spec's index bound: a step name contributes
`index + 1` when it is one of the fixed step names. -/
def bump (s : String) (acc : Nat) : Nat :=
  if s ∈ steps then max (steps.indexOf s + 1) acc else acc

/-- `max (index(s) + 1)` over the fixed steps `s` occurring in the list,
`0` for a list containing none (spec section 3, `currentStepIndex`). -/
def stepBound (cs : List String) : Nat :=
  cs.foldr bump 0

/-- The data-model invariant of spec section 3: the cached
`currentStepIndex` equals the derived bound. -/
def state_invariant (st : BuildStateRec) : Prop :=
  st.current_step = stepBound st.completed_steps

lemma le_bump (s : String) (acc : Nat) : acc ≤ bump s acc := by
  unfold bump
  split
  · exact Nat.le_max_right _ _
  · exact Nat.le_refl _

lemma foldr_bump_base (l : List String) (b : Nat) :
    l.foldr bump b = max (stepBound l) b := by
  induction l with
  | nil => simp [stepBound]
  | cons s l ih =>
      simp only [List.foldr_cons, stepBound] at *
      rw [ih]
      unfold bump
      split
      · rw [Nat.max_assoc]
      · rfl

lemma stepBound_append_singleton (cs : List String) (s : String) :
    stepBound (cs ++ [s]) = max (stepBound cs) (bump s 0) := by
  unfold stepBound
  rw [List.foldr_append, List.foldr_cons, List.foldr_nil, foldr_bump_base]
  rfl

lemma mem_le_stepBound {s : String} {cs : List String}
    (hmem : s ∈ cs) (hstep : s ∈ steps) :
    steps.indexOf s + 1 ≤ stepBound cs := by
  induction cs with
  | nil => cases hmem
  | cons c cs ih =>
      rcases List.mem_cons.mp hmem with h | h
      · subst h
        show steps.indexOf s + 1 ≤ bump s (stepBound cs)
        unfold bump
        rw [if_pos hstep]
        exact Nat.le_max_left _ _
      · exact Nat.le_trans (ih h) (le_bump _ _)

lemma mark_step_completed_invariant {st : BuildStateRec} (s : String)
    (h : state_invariant st) : state_invariant (mark_step_completed st s) := by
  unfold state_invariant at *
  unfold mark_step_completed
  by_cases hmem : s ∈ st.completed_steps
  · rw [if_pos hmem]
    by_cases hstep : s ∈ steps
    · rw [if_pos hstep]
      simp only
      rw [h, Nat.max_eq_left (mem_le_stepBound hmem hstep)]
    · rw [if_neg hstep]
      exact h
  · rw [if_neg hmem]
    by_cases hstep : s ∈ steps
    · rw [if_pos hstep]
      simp only
      rw [stepBound_append_singleton, h]
      unfold bump
      rw [if_pos hstep]
      omega
    · rw [if_neg hstep]
      simp only
      rw [stepBound_append_singleton, h]
      unfold bump
      rw [if_neg hstep]
      omega

lemma mark_step_failed_invariant {st : BuildStateRec} (s msg : String)
    (h : state_invariant st) : state_invariant (mark_step_failed st s msg) := h

/-- A state-store mutation: one call to `mark_step_completed` or to
`mark_step_failed`. -/
inductive StateOp where
  | completed (step : String)
  | failed (step : String) (msg : String)

/-- Apply one mutation to a state record. -/
def applyOp (st : BuildStateRec) : StateOp → BuildStateRec
  | .completed s => mark_step_completed st s
  | .failed s m => mark_step_failed st s m

/-- Apply a sequence of mutations in order. -/
def applyOps (st : BuildStateRec) (ops : List StateOp) : BuildStateRec :=
  ops.foldl applyOp st

lemma applyOps_invariant (ops : List StateOp) :
    ∀ st : BuildStateRec, state_invariant st →
      state_invariant (applyOps st ops) := by
  induction ops with
  | nil => intro st h; exact h
  | cons op ops ih =>
      intro st h
      show state_invariant (applyOps (applyOp st op) ops)
      apply ih
      cases op with
      | completed s => exact mark_step_completed_invariant s h
      | failed s m => exact mark_step_failed_invariant s m h

/-- C3: `mark_step_completed` is idempotent: the second call changes
nothing — `completed_steps` and `current_step` (and every other field)
keep the values produced by the first call. -/
theorem c3_mark_step_completed_idempotent (st : BuildStateRec) (s : String) :
    mark_step_completed (mark_step_completed st s) s =
      mark_step_completed st s := by
  obtain ⟨bid, cn, t, cur, comp, fs, em, td, rp⟩ := st
  by_cases hstep : s ∈ steps <;> by_cases hmem : s ∈ comp <;>
    simp [mark_step_completed, hmem, hstep]

/-- C5: starting from a fresh record, after any sequence of
`mark_step_completed` / `mark_step_failed` calls, `current_step` equals
the maximum of `index(s) + 1` over the fixed steps `s` present in
`completed_steps`, and `0` when none are present (`stepBound`). -/
theorem c5_current_step_invariant (build_id config_name : String) (t : Nat)
    (ops : List StateOp) :
    (applyOps (initState build_id config_name t) ops).current_step =
      stepBound (applyOps (initState build_id config_name t) ops).completed_steps := by
  exact applyOps_invariant ops _ rfl

/-- The on-disk facts the executor manipulates besides the record fields:
whether the state file and the temporary build directory exist. -/
structure World where
  stateFileExists : Bool
  tempDirExists : Bool
deriving DecidableEq

/-- How one run of `_execute_build_steps` ends: the final `tarball` branch
returns the image path; running out of steps raises the
`RuntimeError` of builder.py line 278; an exception from a step operation
propagates; `diverge` marks exhausted fuel (the source loop would spin
without progressing). -/
inductive Outcome where
  | image
  | raisedMsg (msg : String)
  | stepFailed (step : String)
  | diverge
deriving DecidableEq

/-- Result of a run of the executor loop: the step branches that were
invoked, in order; the outcome; the final disk facts. -/
structure ExecResult where
  trace : List String
  outcome : Outcome
  world : World
deriving DecidableEq

/-- The `while next_step:` loop of `ImageBuilder._execute_build_steps`
(builder.py lines 214-278).  Each of the five `if`/`elif` branches guards
on its own step name plus `name not in completed_steps`; since
`next_step` is always drawn from `steps`, exactly the branch of
`next_step` can fire, so the chain is collapsed into one guard.  A firing
branch runs its step operation (abstracted by `stepOk`), marks the step
completed (which persists, so the state file exists), and for `tarball`
additionally deletes the state file (`BuildState.cleanup`, lines 87-90)
and best-effort removes the temp directory (`sudo rm -rf` wrapped in
`try`/`except`, lines 262-271, abstracted by `rmOk`) before returning the
image.  When no branch fires the loop re-reads `get_next_step` with the
state unchanged; `fuel` bounds that otherwise unbounded spinning. -/
def execLoop (stepOk : String → Bool) (rmOk : Bool) :
    Nat → BuildStateRec → World → ExecResult
  | 0, _, w => ⟨[], .diverge, w⟩
  | fuel + 1, st, w =>
    match get_next_step st with
    | none => ⟨[], .raisedMsg "Build completed but no image was created", w⟩
    | some step =>
      if step ∈ steps ∧ step ∉ st.completed_steps then
        if stepOk step then
          if step = "tarball" then
            ⟨[step], .image, ⟨false, if rmOk then false else w.tempDirExists⟩⟩
          else
            let r := execLoop stepOk rmOk fuel (mark_step_completed st step)
              ⟨true, w.tempDirExists⟩
            ⟨step :: r.trace, r.outcome, r.world⟩
        else ⟨[step], .stepFailed step, w⟩
      else execLoop stepOk rmOk fuel st w

/-- The branch bodies invoked when the loop walks a step list: each step
is invoked; a failing one is the last. -/
def invokedOf (stepOk : String → Bool) : List String → List String
  | [] => []
  | s :: rest => if stepOk s then s :: invokedOf stepOk rest else [s]

/-- The outcome of walking a step list: first failure wins, a successful
`tarball` returns the image, an exhausted list raises. -/
def expectedOutcome (stepOk : String → Bool) : List String → Outcome
  | [] => .raisedMsg "Build completed but no image was created"
  | s :: rest =>
    if stepOk s then
      (if s = "tarball" then .image else expectedOutcome stepOk rest)
    else .stepFailed s

/-- Completed fixed steps all lie strictly below the cursor.  This is a
consequence of `state_invariant` used throughout the loop proofs. -/
def below_current (st : BuildStateRec) : Prop :=
  ∀ s ∈ st.completed_steps, s ∈ steps → steps.indexOf s < st.current_step

lemma below_current_of_invariant {st : BuildStateRec}
    (h : state_invariant st) : below_current st := by
  intro s hmem hstep
  have := mem_le_stepBound hmem hstep
  unfold state_invariant at h
  omega

lemma steps_indexOf_getElem :
    ∀ (c : Nat) (h : c < steps.length), steps.indexOf steps[c] = c := by
  decide

lemma steps_drop_indexOf :
    ∀ (c : Nat), c < 6 → ∀ s ∈ steps.drop c, c ≤ steps.indexOf s := by
  decide

lemma stepBound_le_length (cs : List String) : stepBound cs ≤ steps.length := by
  induction cs with
  | nil => simp [stepBound]
  | cons s cs ih =>
      show bump s (stepBound cs) ≤ steps.length
      unfold bump
      split
      · rename_i hstep
        have := List.indexOf_lt_length.mpr hstep
        omega
      · exact ih

lemma mark_current_le (st : BuildStateRec) (s : String) :
    st.current_step ≤ (mark_step_completed st s).current_step := by
  unfold mark_step_completed
  by_cases hmem : s ∈ st.completed_steps <;>
    by_cases hstep : s ∈ steps <;>
      simp [hmem, hstep]

lemma get_next_step_some {st : BuildStateRec} {step : String}
    (h : get_next_step st = some step) :
    ∃ hlt : st.current_step < steps.length, steps[st.current_step] = step := by
  unfold get_next_step at h
  by_cases hlt : st.current_step < steps.length
  · rw [List.getElem?_eq_getElem hlt] at h
    exact ⟨hlt, Option.some.inj h⟩
  · rw [List.getElem?_eq_none (Nat.le_of_not_lt hlt)] at h
    cases h

lemma drop_mono_mem {l : List α} {a : α} {c m : Nat} (hcm : c ≤ m)
    (h : a ∈ l.drop m) : a ∈ l.drop c := by
  have : l.drop m = (l.drop c).drop (m - c) := by
    rw [List.drop_drop]
    congr 1
    omega
  rw [this] at h
  exact List.mem_of_mem_drop h

lemma execLoop_none {st : BuildStateRec} (stepOk : String → Bool)
    (rmOk : Bool) (fuel : Nat) (w : World) (h : get_next_step st = none) :
    execLoop stepOk rmOk (fuel + 1) st w =
      ⟨[], .raisedMsg "Build completed but no image was created", w⟩ := by
  rw [execLoop, h]

lemma execLoop_some {st : BuildStateRec} {step : String}
    (stepOk : String → Bool) (rmOk : Bool) (fuel : Nat) (w : World)
    (h : get_next_step st = some step) :
    execLoop stepOk rmOk (fuel + 1) st w =
      if step ∈ steps ∧ step ∉ st.completed_steps then
        (if stepOk step then
          (if step = "tarball" then
            ⟨[step], .image, ⟨false, if rmOk then false else w.tempDirExists⟩⟩
           else
            let r := execLoop stepOk rmOk fuel (mark_step_completed st step)
              ⟨true, w.tempDirExists⟩
            ⟨step :: r.trace, r.outcome, r.world⟩)
         else ⟨[step], .stepFailed step, w⟩)
      else execLoop stepOk rmOk fuel st w := by
  rw [execLoop, h]

/-- Every step branch the loop invokes comes from the part of the step
sequence at or after the starting cursor. -/
lemma execLoop_trace_mem (stepOk : String → Bool) (rmOk : Bool) :
    ∀ (fuel : Nat) (st : BuildStateRec) (w : World),
      ∀ s ∈ (execLoop stepOk rmOk fuel st w).trace,
        s ∈ steps.drop st.current_step := by
  intro fuel
  induction fuel with
  | zero => intro st w s hs; simp [execLoop] at hs
  | succ fuel ih =>
      intro st w s hs
      cases hnext : get_next_step st with
      | none => rw [execLoop_none stepOk rmOk fuel w hnext] at hs; simp at hs
      | some step =>
          rw [execLoop_some stepOk rmOk fuel w hnext] at hs
          obtain ⟨hlt, hstepeq⟩ := get_next_step_some hnext
          have hhead : step ∈ steps.drop st.current_step := by
            rw [List.drop_eq_getElem_cons hlt, hstepeq]
            exact List.mem_cons_self _ _
          by_cases hcond : step ∈ steps ∧ step ∉ st.completed_steps
          · rw [if_pos hcond] at hs
            by_cases hok : stepOk step
            · rw [if_pos hok] at hs
              by_cases htar : step = "tarball"
              · rw [if_pos htar] at hs
                simp at hs
                rw [hs]
                exact hhead
              · rw [if_neg htar] at hs
                simp at hs
                rcases hs with hs | hs
                · rw [hs]; exact hhead
                · have := ih (mark_step_completed st step)
                    ⟨true, w.tempDirExists⟩ s hs
                  exact drop_mono_mem (mark_current_le st step) this
            · rw [if_neg hok] at hs
              simp at hs
              rw [hs]
              exact hhead
          · rw [if_neg hcond] at hs
            exact ih st w s hs

/-- Running the loop with enough fuel from a state whose completed fixed
steps all sit below the cursor invokes exactly the remaining steps (up to
the first failing one) and ends as `expectedOutcome` describes. -/
lemma execLoop_run (stepOk : String → Bool) (rmOk : Bool) :
    ∀ (fuel : Nat) (st : BuildStateRec) (w : World),
      below_current st → steps.length - st.current_step < fuel →
      (execLoop stepOk rmOk fuel st w).trace
          = invokedOf stepOk (steps.drop st.current_step) ∧
      (execLoop stepOk rmOk fuel st w).outcome
          = expectedOutcome stepOk (steps.drop st.current_step) := by
  intro fuel
  induction fuel with
  | zero => intro st w _ hf; omega
  | succ fuel ih =>
      intro st w hP hf
      by_cases hlt : st.current_step < steps.length
      · have hnext : get_next_step st = some (steps[st.current_step]) := by
          unfold get_next_step
          exact List.getElem?_eq_getElem hlt
        have hidx : steps.indexOf steps[st.current_step] = st.current_step :=
          steps_indexOf_getElem _ hlt
        have hsmem : steps[st.current_step] ∈ steps :=
          List.getElem_mem hlt
        have hnotmem : steps[st.current_step] ∉ st.completed_steps := by
          intro hmem
          have h2 := hP _ hmem hsmem
          rw [hidx] at h2
          exact Nat.lt_irrefl _ h2
        have hdrop : steps.drop st.current_step
            = steps[st.current_step] :: steps.drop (st.current_step + 1) :=
          List.drop_eq_getElem_cons hlt
        rw [execLoop_some stepOk rmOk fuel w hnext, if_pos ⟨hsmem, hnotmem⟩]
        by_cases hok : stepOk steps[st.current_step]
        · rw [if_pos hok]
          by_cases htar : steps[st.current_step] = "tarball"
          · rw [if_pos htar]
            have hcur4 : st.current_step = 4 := by
              have h4 : steps.indexOf "tarball" = 4 := by decide
              rw [htar, h4] at hidx
              omega
            have hnil : steps.drop (st.current_step + 1) = [] := by
              rw [hcur4]
              rfl
            rw [htar] at hok hdrop
            rw [htar, hdrop, hnil]
            constructor
            · simp only [invokedOf]
              rw [if_pos hok]
            · simp only [expectedOutcome]
              rw [if_pos hok]
              simp
          · rw [if_neg htar]
            have hcur2 : (mark_step_completed st
                steps[st.current_step]).current_step = st.current_step + 1 := by
              unfold mark_step_completed
              rw [if_neg hnotmem, if_pos hsmem]
              simp only
              rw [hidx]
              omega
            have hcomp2 : (mark_step_completed st
                steps[st.current_step]).completed_steps
                  = st.completed_steps ++ [steps[st.current_step]] := by
              unfold mark_step_completed
              rw [if_neg hnotmem, if_pos hsmem]
            have hP2 : below_current
                (mark_step_completed st steps[st.current_step]) := by
              intro s hmem hstep
              rw [hcomp2] at hmem
              rw [hcur2]
              rcases List.mem_append.mp hmem with h | h
              · have := hP s h hstep
                omega
              · rw [List.mem_singleton.mp h, hidx]
                omega
            have hf2 : steps.length - (mark_step_completed st
                steps[st.current_step]).current_step < fuel := by
              rw [hcur2]
              omega
            obtain ⟨iht, iho⟩ := ih (mark_step_completed st
              steps[st.current_step]) ⟨true, w.tempDirExists⟩ hP2 hf2
            rw [hcur2] at iht iho
            rw [hdrop]
            constructor
            · show steps[st.current_step] ::
                (execLoop stepOk rmOk fuel (mark_step_completed st
                  steps[st.current_step]) ⟨true, w.tempDirExists⟩).trace = _
              rw [iht]
              simp only [invokedOf]
              rw [if_pos hok]
            · show (execLoop stepOk rmOk fuel (mark_step_completed st
                steps[st.current_step]) ⟨true, w.tempDirExists⟩).outcome = _
              rw [iho]
              simp only [expectedOutcome]
              rw [if_pos hok, if_neg htar]
        · rw [if_neg hok]
          rw [hdrop]
          constructor
          · show [steps[st.current_step]] = _
            simp only [invokedOf]
            rw [if_neg hok]
          · show Outcome.stepFailed steps[st.current_step] = _
            simp only [expectedOutcome]
            rw [if_neg hok]
      · have hnone : get_next_step st = none := by
          unfold get_next_step
          exact List.getElem?_eq_none (Nat.le_of_not_lt hlt)
        have hdrop : steps.drop st.current_step = [] :=
          List.drop_eq_nil_of_le (Nat.le_of_not_lt hlt)
        rw [execLoop_none stepOk rmOk fuel w hnone]
        simp [hdrop, invokedOf, expectedOutcome]

lemma stepBound_le_one_of_all_deboot (cs : List String)
    (h : ∀ s ∈ cs, s = "debootstrap") : stepBound cs ≤ 1 := by
  induction cs with
  | nil => simp [stepBound]
  | cons c cs ih =>
      have hc : c = "debootstrap" := h c (List.mem_cons_self _ _)
      subst hc
      show bump "debootstrap" (stepBound cs) ≤ 1
      unfold bump
      rw [if_pos (by decide : ("debootstrap" : String) ∈ steps)]
      have h0 : steps.indexOf "debootstrap" = 0 := by decide
      rw [h0]
      have := ih fun s hs => h s (List.mem_cons_of_mem _ hs)
      omega

/-- C1: a record whose completed-step set is exactly the bootstrap step
(and whose cached cursor satisfies the data-model invariant) resumes by
executing exactly `packages, custom_commands, environment, tarball` in
that order and completing the build; the debootstrap branch is never
invoked again, under any step outcomes; and in general, on any record
satisfying the invariant, no step already in `completed_steps` is ever
invoked (it is skipped and only later steps run). -/
theorem c1_resume_after_debootstrap (st : BuildStateRec) (w : World)
    (rmOk : Bool)
    (hmem : ∀ s, s ∈ st.completed_steps ↔ s = "debootstrap")
    (hinv : state_invariant st) :
    (execLoop (fun _ => true) rmOk 6 st w).trace
        = ["packages", "custom_commands", "environment", "tarball"]
    ∧ (execLoop (fun _ => true) rmOk 6 st w).outcome = Outcome.image
    ∧ (∀ (stepOk : String → Bool) (fuel : Nat) (w2 : World),
        "debootstrap" ∉ (execLoop stepOk rmOk fuel st w2).trace)
    ∧ (∀ (st2 : BuildStateRec) (stepOk : String → Bool) (fuel : Nat)
        (w2 : World), state_invariant st2 →
        ∀ s ∈ (execLoop stepOk rmOk fuel st2 w2).trace,
          s ∉ st2.completed_steps) := by
  have hd : "debootstrap" ∈ st.completed_steps := (hmem _).mpr rfl
  have h0 : steps.indexOf "debootstrap" = 0 := by decide
  have h1 : 1 ≤ stepBound st.completed_steps := by
    have := mem_le_stepBound hd (by decide : ("debootstrap" : String) ∈ steps)
    omega
  have h2 : stepBound st.completed_steps ≤ 1 :=
    stepBound_le_one_of_all_deboot _ fun s hs => (hmem s).mp hs
  have hcur : st.current_step = 1 := by
    unfold state_invariant at hinv
    omega
  have hP : below_current st := below_current_of_invariant hinv
  have hfuel : steps.length - st.current_step < 6 := by
    rw [hcur]
    decide
  obtain ⟨htr, hoc⟩ := execLoop_run (fun _ => true) rmOk 6 st w hP hfuel
  rw [hcur] at htr hoc
  refine ⟨?_, ?_, ?_, ?_⟩
  · rw [htr]
    decide
  · rw [hoc]
    decide
  · intro stepOk fuel w2 hin
    have hsub := execLoop_trace_mem stepOk rmOk fuel st w2 _ hin
    rw [hcur] at hsub
    exact (by decide : "debootstrap" ∉ steps.drop 1) hsub
  · intro st2 stepOk fuel w2 hinv2 s hs hm
    have hsub := execLoop_trace_mem stepOk rmOk fuel st2 w2 s hs
    have hlen5 : steps.length = 5 := by decide
    have hc2 : st2.current_step ≤ steps.length := by
      have := stepBound_le_length st2.completed_steps
      unfold state_invariant at hinv2
      omega
    have hcle : st2.current_step ≤ steps.indexOf s :=
      steps_drop_indexOf st2.current_step (by omega) s hsub
    have hsstep : s ∈ steps := List.mem_of_mem_drop hsub
    have := mem_le_stepBound hm hsstep
    unfold state_invariant at hinv2
    omega

/-- A concrete resumable record: only debootstrap completed, cursor 1. -/
def c1_state : BuildStateRec :=
  { build_id := "b1"
    config_name := "cfg"
    started_at := 0
    current_step := 1
    completed_steps := ["debootstrap"]
    failed_step := none
    error_message := none
    temp_dir := some "/tmp/flux_build_b1"
    rootfs_path := some "/tmp/flux_build_b1/rootfs" }

/-- Witness for C1 at a concrete record. -/
theorem c1_resume_after_debootstrap_witness :
    (execLoop (fun _ => true) true 6 c1_state ⟨true, true⟩).trace
        = ["packages", "custom_commands", "environment", "tarball"]
    ∧ (execLoop (fun _ => true) true 6 c1_state ⟨true, true⟩).outcome
        = Outcome.image :=
  ⟨(c1_resume_after_debootstrap c1_state ⟨true, true⟩ true
      (by intro s; simp [c1_state]) (by unfold state_invariant; decide)).1,
   (c1_resume_after_debootstrap c1_state ⟨true, true⟩ true
      (by intro s; simp [c1_state]) (by unfold state_invariant; decide)).2.1⟩

/-- C10: resuming a record in which every fixed step is completed (with
the invariant cursor) makes the executor raise
`Build completed but no image was created` rather than return an image,
for any step outcomes and any positive fuel. -/
theorem c10_all_completed_raises (st : BuildStateRec)
    (hall : ∀ s ∈ steps, s ∈ st.completed_steps)
    (hinv : state_invariant st) :
    ∀ (stepOk : String → Bool) (rmOk : Bool) (fuel : Nat) (w : World),
      (execLoop stepOk rmOk (fuel + 1) st w).outcome
          = Outcome.raisedMsg "Build completed but no image was created"
      ∧ (execLoop stepOk rmOk (fuel + 1) st w).outcome ≠ Outcome.image := by
  intro stepOk rmOk fuel w
  have htar : ("tarball" : String) ∈ st.completed_steps :=
    hall _ (by decide)
  have h5 : steps.indexOf "tarball" + 1 = 5 := by decide
  have hge : 5 ≤ stepBound st.completed_steps := by
    have := mem_le_stepBound htar (by decide : ("tarball" : String) ∈ steps)
    omega
  have hle := stepBound_le_length st.completed_steps
  have hcur : st.current_step = 5 := by
    unfold state_invariant at hinv
    have : steps.length = 5 := by decide
    omega
  have hnone : get_next_step st = none := by
    unfold get_next_step
    apply List.getElem?_eq_none
    rw [hcur]
    decide
  rw [execLoop_none stepOk rmOk fuel w hnone]
  exact ⟨rfl, by simp⟩

/-- A concrete fully-completed record, as left by a crash between the
final `mark_step_completed` and `cleanup`. -/
def c10_state : BuildStateRec :=
  { build_id := "b9"
    config_name := "cfg"
    started_at := 0
    current_step := 5
    completed_steps :=
      ["debootstrap", "packages", "custom_commands", "environment", "tarball"]
    failed_step := none
    error_message := none
    temp_dir := some "/tmp/flux_build_b9"
    rootfs_path := some "/tmp/flux_build_b9/rootfs" }

/-- Witness for C10 at a concrete record. -/
theorem c10_all_completed_raises_witness :
    (execLoop (fun _ => true) true 1 c10_state ⟨true, true⟩).outcome
        = Outcome.raisedMsg "Build completed but no image was created" :=
  (c10_all_completed_raises c10_state (by decide)
    (by unfold state_invariant; decide)
    (fun _ => true) true 0 ⟨true, true⟩).1

lemma execLoop_image_world (stepOk : String → Bool) (rmOk : Bool) :
    ∀ (fuel : Nat) (st : BuildStateRec) (w : World),
      (execLoop stepOk rmOk fuel st w).outcome = Outcome.image →
      (execLoop stepOk rmOk fuel st w).world.stateFileExists = false
      ∧ (rmOk = true →
          (execLoop stepOk rmOk fuel st w).world.tempDirExists = false) := by
  intro fuel
  induction fuel with
  | zero => intro st w h; simp [execLoop] at h
  | succ fuel ih =>
      intro st w h
      cases hnext : get_next_step st with
      | none =>
          rw [execLoop_none stepOk rmOk fuel w hnext] at h
          simp at h
      | some step =>
          rw [execLoop_some stepOk rmOk fuel w hnext] at h ⊢
          by_cases hcond : step ∈ steps ∧ step ∉ st.completed_steps
          · rw [if_pos hcond] at h ⊢
            by_cases hok : stepOk step
            · rw [if_pos hok] at h ⊢
              by_cases htar : step = "tarball"
              · rw [if_pos htar] at h ⊢
                refine ⟨rfl, fun hr => ?_⟩
                show (if rmOk then false else w.tempDirExists) = false
                rw [if_pos hr]
              · rw [if_neg htar] at h ⊢
                exact ih (mark_step_completed st step)
                  ⟨true, w.tempDirExists⟩ h
            · rw [if_neg hok] at h
              simp at h
          · rw [if_neg hcond] at h ⊢
            exact ih st w h

/-- C6 (amended): when a run of the executor completes successfully, the
state record has been deleted; the temp-directory removal is attempted,
and removes the directory only when the external `rm` succeeds — on
failure the build still returns success with the directory left behind. -/
theorem c6_success_cleanup (stepOk : String → Bool) (rmOk : Bool)
    (fuel : Nat) (st : BuildStateRec) (w : World)
    (h : (execLoop stepOk rmOk fuel st w).outcome = Outcome.image) :
    (execLoop stepOk rmOk fuel st w).world.stateFileExists = false
    ∧ (rmOk = true →
        (execLoop stepOk rmOk fuel st w).world.tempDirExists = false) :=
  execLoop_image_world stepOk rmOk fuel st w h

/-- Witness for the amended C6: a successful run with a working `rm`
leaves neither the state record nor the temp directory. -/
theorem c6_success_cleanup_witness :
    (execLoop (fun _ => true) true 6 (initState "b2" "cfg" 0)
        ⟨false, true⟩).world.stateFileExists = false
    ∧ (execLoop (fun _ => true) true 6 (initState "b2" "cfg" 0)
        ⟨false, true⟩).world.tempDirExists = false := by
  have h := c6_success_cleanup (fun _ => true) true 6 (initState "b2" "cfg" 0)
    ⟨false, true⟩ (by decide)
  exact ⟨h.1, h.2 rfl⟩

/-- Counterexample to C6 as stated: when the best-effort
`sudo rm -rf` fails (builder.py lines 262-271 warn and continue), the
build still completes successfully yet the working directory still
exists. -/
theorem c6_counterexample :
    (execLoop (fun _ => true) false 6 (initState "b3" "cfg" 0)
        ⟨false, true⟩).outcome = Outcome.image
    ∧ (execLoop (fun _ => true) false 6 (initState "b3" "cfg" 0)
        ⟨false, true⟩).world.tempDirExists = true := by
  decide

/-- The mirror priority lists of `ImageBuilder._run_debootstrap`
(builder.py lines 332-343); a distribution without a list gets the single
empty mirror. -/
def mirror_map (distribution : String) : List String :=
  if distribution = "ubuntu" then
    ["http://archive.ubuntu.com/ubuntu/",
     "http://us.archive.ubuntu.com/ubuntu/",
     "http://mirror.math.princeton.edu/pub/ubuntu/"]
  else if distribution = "debian" then
    ["http://deb.debian.org/debian/",
     "http://ftp.us.debian.org/debian/"]
  else [""]

/-- The `for mirror in mirrors` loop of `_run_debootstrap` with its
`last_error` accumulator (builder.py lines 346-359): attempt each
endpoint in order; return on the first success; on failure remember the
error and continue; when the list is exhausted raise the remembered
(last) error, or fall through when there never was one.  Returns the
endpoints attempted, in order, with the result. -/
def try_mirrors (attempt : String → Except String Unit) :
    List String → Option String → List String × Except String Unit
  | [], none => ([], Except.ok ())
  | [], some e => ([], Except.error e)
  | m :: ms, _ =>
    match attempt m with
    | Except.ok _ => ([m], Except.ok ())
    | Except.error e =>
      let r := try_mirrors attempt ms (some e)
      (m :: r.1, r.2)

/-- `_run_debootstrap`'s mirror walk starts with `last_error = None`. -/
def run_debootstrap_mirrors (attempt : String → Except String Unit)
    (mirrors : List String) : List String × Except String Unit :=
  try_mirrors attempt mirrors none

lemma try_mirrors_last_irrel (attempt : String → Except String Unit)
    (ms : List String) (h : ms ≠ []) (l1 l2 : Option String) :
    try_mirrors attempt ms l1 = try_mirrors attempt ms l2 := by
  cases ms with
  | nil => exact absurd rfl h
  | cons m ms => rfl

lemma try_mirrors_all_fail (attempt : String → Except String Unit)
    (e : String) :
    ∀ (ms : List String) (hne : ms ≠ []) (l : Option String),
      (∀ x ∈ ms, ∃ e2, attempt x = Except.error e2) →
      attempt (ms.getLast hne) = Except.error e →
      try_mirrors attempt ms l = (ms, Except.error e) := by
  intro ms
  induction ms with
  | nil => intro hne; exact absurd rfl hne
  | cons m ms ih =>
      intro hne l hall hlast
      by_cases hms : ms = []
      · subst hms
        have hm : attempt m = Except.error e := hlast
        simp [try_mirrors, hm]
      · obtain ⟨em, hem⟩ := hall m (List.mem_cons_self _ _)
        have hlast2 : attempt (ms.getLast hms) = Except.error e := by
          rw [← List.getLast_cons hms]
          exact hlast
        have hrec := ih hms (some em)
          (fun x hx => hall x (List.mem_cons_of_mem _ hx)) hlast2
        simp [try_mirrors, hem, hrec]

/-- C4: the mirror loop attempts endpoints strictly in list order,
stopping at the first success with no further attempts; and when every
endpoint fails it raises the error of the last endpoint of the list. -/
theorem c4_mirror_order :
    (∀ (attempt : String → Except String Unit) (pre : List String)
        (m : String) (post : List String),
        (∀ x ∈ pre, ∃ e, attempt x = Except.error e) →
        attempt m = Except.ok () →
        run_debootstrap_mirrors attempt (pre ++ m :: post)
          = (pre ++ [m], Except.ok ()))
    ∧ (∀ (attempt : String → Except String Unit) (mirrors : List String)
        (hne : mirrors ≠ []) (e : String),
        (∀ x ∈ mirrors, ∃ e2, attempt x = Except.error e2) →
        attempt (mirrors.getLast hne) = Except.error e →
        run_debootstrap_mirrors attempt mirrors
          = (mirrors, Except.error e)) := by
  constructor
  · intro attempt pre m post hpre hok
    induction pre with
    | nil => simp [run_debootstrap_mirrors, try_mirrors, hok]
    | cons p pre ih =>
        obtain ⟨e, he⟩ := hpre p (List.mem_cons_self _ _)
        have hrec := ih fun x hx => hpre x (List.mem_cons_of_mem _ hx)
        show try_mirrors attempt (p :: (pre ++ m :: post)) none = _
        have hne : pre ++ m :: post ≠ [] := by
          cases pre <;> simp
        rw [show try_mirrors attempt (p :: (pre ++ m :: post)) none
              = (p :: (try_mirrors attempt (pre ++ m :: post) (some e)).1,
                 (try_mirrors attempt (pre ++ m :: post) (some e)).2) from by
            simp [try_mirrors, he]]
        rw [try_mirrors_last_irrel attempt _ hne (some e) none]
        rw [show try_mirrors attempt (pre ++ m :: post) none
              = run_debootstrap_mirrors attempt (pre ++ m :: post) from rfl]
        rw [hrec]
        simp
  · intro attempt mirrors hne e hall hlast
    exact try_mirrors_all_fail attempt e mirrors hne none hall hlast

/-- A demo attempt function: the second configured ubuntu mirror works,
the others are down. -/
def attempt_demo (m : String) : Except String Unit :=
  if m = "http://us.archive.ubuntu.com/ubuntu/" then Except.ok ()
  else Except.error ("connection refused: " ++ m)

/-- A demo attempt function with every endpoint down. -/
def attempt_allfail (m : String) : Except String Unit :=
  Except.error ("connection refused: " ++ m)

/-- Witness for C4 on the configured mirror lists. -/
theorem c4_mirror_order_witness :
    run_debootstrap_mirrors attempt_demo (mirror_map "ubuntu")
      = (["http://archive.ubuntu.com/ubuntu/",
          "http://us.archive.ubuntu.com/ubuntu/"], Except.ok ())
    ∧ run_debootstrap_mirrors attempt_allfail (mirror_map "debian")
      = (mirror_map "debian",
         Except.error
           "connection refused: http://ftp.us.debian.org/debian/") := by
  constructor
  · exact c4_mirror_order.1 attempt_demo
      ["http://archive.ubuntu.com/ubuntu/"]
      "http://us.archive.ubuntu.com/ubuntu/"
      ["http://mirror.math.princeton.edu/pub/ubuntu/"]
      (by
        intro x hx
        refine ⟨"connection refused: " ++ x, ?_⟩
        simp only [List.mem_singleton] at hx
        subst hx
        rfl)
      rfl
  · exact c4_mirror_order.2 attempt_allfail (mirror_map "debian")
      (by decide) "connection refused: http://ftp.us.debian.org/debian/"
      (fun x _ => ⟨"connection refused: " ++ x, rfl⟩) rfl

/-- Crash model of `BuildState.save_state` (builder.py lines 54-57): the
method opens the state file itself with mode `w` — truncating it — and
writes the serialized record directly into it; there is no temporary
file and no rename.  A crash part-way through therefore leaves some
prefix of the new content (the empty prefix right after truncation) in
place of the old record. -/
def save_state_crash_states (newContent : String) : List String :=
  (List.range (newContent.length + 1)).map
    fun k => String.mk (newContent.toList.take k)

/-- C2 fails on the code: a crash during `save_state` can expose the
truncated (empty) file, which is neither the old serialized record nor
the new one, so a reader can observe a partially written record. -/
theorem c2_save_state_not_atomic :
    (save_state_crash_states "new-record").contains "" = true
    ∧ ("" == "old-record") = false
    ∧ ("" == "new-record") = false := by
  decide

/-- `BuildState.__init__` (builder.py lines 25-52) acting as the state
store's `create`: it derives the state-file path and builds a fresh
in-memory state dict.  It reads nothing from disk, performs no existence
check, and has no failure path; the durable records (`disk`, keyed by
build id) are irrelevant to it. -/
def create_build_state (build_id config_name : String) (t : Nat)
    (_disk : String → Option String) : Except String BuildStateRec :=
  Except.ok (initState build_id config_name t)

/-- The effect of a later `save_state` on the durable records: a plain
overwrite of the record at the build id. -/
def persist_record (disk : String → Option String) (id content : String) :
    String → Option String :=
  fun i => if i = id then some content else disk i

/-- A disk already holding a durable record for build id `abc`. -/
def disk_with_abc : String → Option String :=
  fun i => if i = "abc" then some "old-record" else none

/-- Counterexample to C7: with a record for `abc` already durable,
creating a `BuildState` for `abc` succeeds anyway, and persisting then
silently overwrites the existing record. -/
theorem c7_counterexample :
    create_build_state "abc" "cfg" 0 disk_with_abc
        = Except.ok (initState "abc" "cfg" 0)
    ∧ disk_with_abc "abc" = some "old-record"
    ∧ persist_record disk_with_abc "abc" "new-record" "abc"
        = some "new-record" :=
  ⟨rfl, rfl, rfl⟩

/-- C7 (amended): `create` never fails — for any disk contents it
returns the fresh record, and a subsequent persist overwrites whatever
record the identifier had. -/
theorem c7_create_never_fails (build_id config_name : String) (t : Nat)
    (disk : String → Option String) :
    create_build_state build_id config_name t disk
        = Except.ok (initState build_id config_name t)
    ∧ (∀ content : String,
        persist_record disk build_id content build_id = some content) := by
  refine ⟨rfl, fun content => ?_⟩
  unfold persist_record
  rw [if_pos rfl]

/-- Structured data as parsed by `json.load`. -/
inductive Json where
  | null
  | bool (b : Bool)
  | num (n : Int)
  | str (s : String)
  | arr (xs : List Json)
  | obj (fields : List (String × Json))

/-- `BuildState.load_state` (builder.py lines 59-63): when the state file
does not exist the in-memory state is kept; otherwise `json.load` runs —
raising if the text does not parse — and whatever value it produced is
adopted verbatim, with no validation of its shape. -/
def load_state (file : Option (Except String Json)) (cur : Json) :
    Except String Json :=
  match file with
  | none => Except.ok cur
  | some (Except.error e) => Except.error e
  | some (Except.ok j) => Except.ok j

/-- The keys of a well-formed persisted record (spec section 6). -/
def record_keys : List String :=
  ["build_id", "config_name", "started_at", "current_step",
   "completed_steps", "failed_step", "error_message", "temp_dir",
   "rootfs_path"]

/-- A parsed document has the expected record shape when it is an object
carrying every record key. -/
def isRecordShape : Json → Bool
  | Json.obj fields => record_keys.all fun k => fields.any fun p => p.1 == k
  | _ => false

/-- Counterexample to C8: a state file holding the valid JSON document
`[]` — which is not of the record shape — loads without any error, and
the malformed value is adopted as the state. -/
theorem c8_counterexample :
    load_state (some (Except.ok (Json.arr []))) Json.null
        = Except.ok (Json.arr [])
    ∧ isRecordShape (Json.arr []) = false :=
  ⟨rfl, rfl⟩

/-- C8 (amended): loading fails exactly when the persisted text does not
parse as JSON; any parseable document — of the expected shape or not —
is returned as the record, and a missing file keeps the current state. -/
theorem c8_load_behavior (cur : Json) :
    (∀ e : String, load_state (some (Except.error e)) cur = Except.error e)
    ∧ (∀ j : Json, load_state (some (Except.ok j)) cur = Except.ok j)
    ∧ load_state none cur = Except.ok cur :=
  ⟨fun _ => rfl, fun _ => rfl, rfl⟩

/-- Whether `needle` occurs as a contiguous substring of `hay`. -/
def strContainsChars (hay needle : List Char) : Bool :=
  (List.range (hay.length + 1)).any fun i => needle.isPrefixOf (hay.drop i)

/-- String wrapper for `strContainsChars`. -/
def strContains (hay needle : String) : Bool :=
  strContainsChars hay.toList needle.toList

/-- The `except Exception` handler of `ImageBuilder.build_image`
(builder.py lines 158-171): persist the failure via `mark_step_failed`
against the next pending step (or `unknown`), print the failure and a
resume command naming the build id to the console, then `raise` the
original error object unchanged.  Returns the updated record, the
console lines, and the propagated error. -/
def build_image_on_error (st : BuildStateRec) (e : String) :
    BuildStateRec × List String × String :=
  (mark_step_failed st
      (match get_next_step st with
       | some s => s
       | none => "unknown") e,
   ["Build failed: " ++ e,
    "To continue from where it left off, run:",
    "flux build-continue " ++ st.build_id],
   e)

/-- A fresh record whose build id appears nowhere in the step error. -/
def c9_state : BuildStateRec := initState "ab12cd34" "cfg" 0

/-- Counterexample to C9: the error propagated to the caller is the
original step error, and the build identifier does not occur in it. -/
theorem c9_counterexample :
    (build_image_on_error c9_state "debootstrap failed: mirror down").2.2
        = "debootstrap failed: mirror down"
    ∧ strContains
        (build_image_on_error c9_state "debootstrap failed: mirror down").2.2
        "ab12cd34" = false := by
  exact ⟨rfl, by decide⟩

lemma isPrefixOf_self (l : List Char) : l.isPrefixOf l = true := by
  induction l with
  | nil => rfl
  | cons a l ih => simp [List.isPrefixOf, ih]

lemma strContains_append_self (p s : String) :
    strContains (p ++ s) s = true := by
  unfold strContains strContainsChars
  apply List.any_eq_true.mpr
  refine ⟨p.toList.length, ?_, ?_⟩
  · apply List.mem_range.mpr
    have h : (p ++ s).toList = p.toList ++ s.toList := String.data_append p s
    rw [h, List.length_append]
    omega
  · have h : (p ++ s).toList = p.toList ++ s.toList := String.data_append p s
    rw [h, List.drop_left]
    exact isPrefixOf_self s.toList

/-- C9 (amended): on any step failure the original error is re-raised to
the caller unchanged — the build identifier is not attached to it — and
the identifier is instead surfaced on the console, in the suggested
resume command. -/
theorem c9_error_propagation (st : BuildStateRec) (e : String) :
    (build_image_on_error st e).2.2 = e
    ∧ ∃ line ∈ (build_image_on_error st e).2.1,
        strContains line st.build_id = true := by
  refine ⟨rfl, ⟨"flux build-continue " ++ st.build_id, ?_, ?_⟩⟩
  · simp [build_image_on_error]
  · exact strContains_append_self "flux build-continue " st.build_id

end Flux
